import Mathlib

/-!
Shallow embedding of the PixelSentinel file-state reconciliation engine
(`pixelsentinel.py`).  Relative paths are modeled as lists of components,
SQLite tables as lists of rows in rowid order, Python dictionaries as
association lists with update-in-place-or-append insertion, and file
contents as natural numbers digested by an injective fingerprint function.
-/

/-- A relative path, as its list of components (`os.sep`-separated pieces). -/
abbrev FPath := List String

/-- A content fingerprint (the SHA-256 hex digest in the source). -/
abbrev Checksum := Nat

/-- Models `calculate_checksum`: a deterministic, collision-resistant digest of
the file's bytes.  Collision resistance is modeled by letting the digest be the
content itself; equal bytes give equal digests and distinct bytes give
distinct digests. -/
def calculate_checksum (content : Nat) : Checksum := content

/-- One row of the `files` table: `file_id INTEGER PRIMARY KEY AUTOINCREMENT,
path TEXT NOT NULL, checksum TEXT NOT NULL, timestamp REAL NOT NULL`.
Note the schema puts no UNIQUE constraint on `path`. -/
structure FileRow where
  file_id : Nat
  path : FPath
  checksum : Checksum
  timestamp : Nat
deriving DecidableEq, Repr

/-- The `files` table: rows in rowid order plus the next AUTOINCREMENT id. -/
structure FilesDB where
  rows : List FileRow
  nextId : Nat
deriving DecidableEq, Repr

/-- A freshly initialized (empty) `files` table. -/
def FilesDB.empty : FilesDB := ⟨[], 1⟩

/-- Models `SELECT checksum, timestamp FROM files WHERE path = ?`: all matching
rows, in rowid order. -/
def selectByPath (db : FilesDB) (p : FPath) : List (Checksum × Nat) :=
  (db.rows.filter (fun r => decide (r.path = p))).map (fun r => (r.checksum, r.timestamp))

/-- Models `INSERT OR REPLACE INTO files (path, checksum, timestamp)`.
Since `files.path` has no UNIQUE constraint and `file_id` is auto-assigned, the
statement can never hit a uniqueness conflict, so `OR REPLACE` never fires and
the statement always appends a fresh row. -/
def insertOrReplaceFile (db : FilesDB) (p : FPath) (c : Checksum) (t : Nat) : FilesDB :=
  ⟨db.rows ++ [⟨db.nextId, p, c, t⟩], db.nextId + 1⟩

/-- Models `UPDATE files SET path = ? WHERE path = ?` (new path first, as in
`detect_files`). -/
def updateFilePath (db : FilesDB) (newPath oldPath : FPath) : FilesDB :=
  ⟨db.rows.map (fun r => if r.path = oldPath then { r with path := newPath } else r), db.nextId⟩

/-- Models `DELETE FROM files WHERE path = ?`. -/
def deleteFilePath (db : FilesDB) (p : FPath) : FilesDB :=
  ⟨db.rows.filter (fun r => decide (r.path ≠ p)), db.nextId⟩

/-- Python-dict insertion on an association list: if the key is present its
value is updated in place (keeping the key's position), otherwise the pair is
appended.  This reproduces CPython's insertion-ordered dict semantics. -/
def dictInsert {α β : Type} [DecidableEq α] (l : List (α × β)) (k : α) (v : β) :
    List (α × β) :=
  if l.any (fun kv => decide (kv.1 = k)) then
    l.map (fun kv => if kv.1 = k then (k, v) else kv)
  else l ++ [(k, v)]

/-- Python-dict lookup on an association list. -/
def dictLookup {α β : Type} [DecidableEq α] (l : List (α × β)) (k : α) : Option β :=
  (l.find? (fun kv => decide (kv.1 = k))).map (fun kv => kv.2)

/-- The keys of an association list, in order. -/
def dictKeys {α β : Type} (l : List (α × β)) : List α := l.map (fun kv => kv.1)

/-- The result dict of `process_file`: `{"path", "checksum", "timestamp"}`.
This is the spec's ScanEntry. -/
structure ScanEntry where
  path : FPath
  checksum : Checksum
  timestamp : Nat
deriving DecidableEq, Repr

/-- One element of `file_tasks` in `get_file_list`: the file's relative path,
its bytes (digested on demand), its `os.path.getmtime` value, and whether the
file can be opened for hashing (`readable = false` models the I/O error path
of `calculate_checksum`, caught as `FileNotFoundError` in `process_file`). -/
structure ScanTask where
  path : FPath
  content : Nat
  mtime : Nat
  readable : Bool
deriving DecidableEq, Repr

/-- A directory tree under the watch root: regular files carry bytes, an
mtime and a readability flag; directories carry their children in listing
order. -/
inductive FSTree where
  | file (name : String) (content : Nat) (mtime : Nat) (readable : Bool)
  | dir (name : String) (children : List FSTree)

/-- The directory exclusion set hardcoded in `get_file_list`: the names
`#snapshot` and `@eaDir`. -/
def excluded_dirs : List String := ["#snapshot", "@eaDir"]

/-- The file exclusion set hardcoded in `get_file_list`: the name
`Thumbs.db`. -/
def excluded_files : List String := ["Thumbs.db"]

/-- The scan tasks contributed by the regular files directly inside one
directory whose relative path is `pre`: files whose name is in
`excluded_files` are dropped, all others yield
`(relative path, bytes, mtime, readable)`. -/
def dirFiles (pre : FPath) (cs : List FSTree) : List ScanTask :=
  cs.filterMap (fun t =>
    match t with
    | .file n c m r => if n ∈ excluded_files then none else some ⟨pre ++ [n], c, m, r⟩
    | .dir _ _ => none)

/-- The recursive part of `os.walk` with in-place pruning
`dirs[:] = [d for d in dirs if d not in excluded_dirs]`: for each subdirectory
of the current listing that is not excluded, emit its files and then recurse;
excluded directories are pruned, so their descendants are never visited.
Files in the listing are handled by `dirFiles` at the parent. -/
def walkSubdirs (pre : FPath) : List FSTree → List ScanTask
  | [] => []
  | .file _ _ _ _ :: rest => walkSubdirs pre rest
  | .dir n gcs :: rest =>
      (if n ∈ excluded_dirs then [] else
        dirFiles (pre ++ [n]) gcs ++ walkSubdirs (pre ++ [n]) gcs) ++ walkSubdirs pre rest

/-- The `file_tasks` list built by `get_file_list` from `os.walk(shared_photos)`:
the watch root's own files first, then a pre-order traversal of its
non-excluded subdirectories.  The root is given by its list of children. -/
def get_file_tasks (root : List FSTree) : List ScanTask :=
  dirFiles [] root ++ walkSubdirs [] root

/-- Models `process_file(full_path, relative_path, modified_time)` against the files
table `db`.  It looks the path up; if no row matches or the first matching
row's timestamp differs from the scanned mtime it hashes the file and runs the
`INSERT OR REPLACE`, otherwise it reuses the stored checksum.  `dbOk = false`
injects an `sqlite3.Error` on the insert: `db_execute` then rolls the
transaction back (the table is unchanged) and raises `ValueError`, which the
`except Exception` handler swallows, so the function returns `None`.
An unreadable file likewise raises during hashing, is caught, and yields
`None`. -/
def process_file (db : FilesDB) (p : FPath) (content : Nat) (mtime : Nat)
    (readable : Bool) (dbOk : Bool) : Option ScanEntry × FilesDB :=
  match selectByPath db p with
  | [] =>
      if readable then
        if dbOk then
          let checksum := calculate_checksum content
          (some ⟨p, checksum, mtime⟩, insertOrReplaceFile db p checksum mtime)
        else (none, db)
      else (none, db)
  | (c, t) :: _ =>
      if t ≠ mtime then
        if readable then
          if dbOk then
            let checksum := calculate_checksum content
            (some ⟨p, checksum, mtime⟩, insertOrReplaceFile db p checksum mtime)
          else (none, db)
        else (none, db)
      else (some ⟨p, c, mtime⟩, db)

/-- The sequential processing loop of `get_file_list`: each task is fed to
`process_file` against the evolving files table, `None` results are skipped,
the rest are collected in order.  `dbFailures` lists the relative paths whose
insert raises an `sqlite3.Error`. -/
def get_file_list (db : FilesDB) (tasks : List ScanTask) (dbFailures : List FPath) :
    List ScanEntry × FilesDB :=
  match tasks with
  | [] => ([], db)
  | t :: ts =>
      let step := process_file db t.path t.content t.mtime t.readable (decide (t.path ∉ dbFailures))
      let rest := get_file_list step.2 ts dbFailures
      (match step.1 with
       | some e => e :: rest.1
       | none => rest.1, rest.2)

/-- Models `load_prior_state`: the dict from each path to its checksum and
timestamp, built row by row in rowid order; a later row with a duplicated path
overwrites the earlier entry (Python dict comprehension semantics). -/
def load_prior_state (db : FilesDB) : List (FPath × Checksum × Nat) :=
  db.rows.foldl (fun acc r => dictInsert acc r.path (r.checksum, r.timestamp)) []

/-- Models the new mode of `detect_files`: current entries whose path is
absent from the prior state or whose checksum differs from the prior one at
that path. -/
def detect_files_new (current : List ScanEntry) (prior : List (FPath × Checksum × Nat)) :
    List ScanEntry :=
  current.filter (fun e =>
    match dictLookup prior e.path with
    | none => true
    | some ct => decide (ct.1 ≠ e.checksum))

/-- An element of the `moved_files` list built by the move mode of
`detect_files`. -/
structure MovedFile where
  old_path : FPath
  new_path : FPath
deriving DecidableEq, Repr

/-- The reverse index from prior checksum to prior path built by the move
mode of `detect_files`: for duplicated checksums the last prior path
encountered wins (Python dict comprehension semantics). -/
def prior_checksums (prior : List (FPath × Checksum × Nat)) : List (Checksum × FPath) :=
  prior.foldl (fun acc kv => dictInsert acc kv.2.1 kv.1) []

/-- Models the move mode of `detect_files`: a current entry is moved when its
checksum appears in the reverse index under a different path; each detected
move then runs `UPDATE files SET path = new WHERE path = old` in order. -/
def detect_files_move (current : List ScanEntry) (prior : List (FPath × Checksum × Nat))
    (db : FilesDB) : List MovedFile × FilesDB :=
  let pcs := prior_checksums prior
  let moved := current.filterMap (fun e =>
    match dictLookup pcs e.checksum with
    | some oldp => if oldp ≠ e.path then some ⟨oldp, e.path⟩ else none
    | none => none)
  (moved, moved.foldl (fun d m => updateFilePath d m.new_path m.old_path) db)

/-- Models the delete mode of `detect_files`: prior paths absent from the current
path set; each then runs `DELETE FROM files WHERE path = ?`. -/
def detect_files_delete (current : List ScanEntry) (prior : List (FPath × Checksum × Nat))
    (db : FilesDB) : List FPath × FilesDB :=
  let currentPaths := current.map (fun e => e.path)
  let deleted := (dictKeys prior).filter (fun p => decide (p ∉ currentPaths))
  (deleted, deleted.foldl (fun d p => deleteFilePath d p) db)

/-- One row of the `albums` table: `album_id INTEGER PRIMARY KEY AUTOINCREMENT,
name TEXT NOT NULL, group_id INTEGER`. -/
structure AlbumRow where
  album_id : Nat
  name : String
  group_id : Nat
deriving DecidableEq, Repr

/-- The `albums` table. -/
structure AlbumsDB where
  rows : List AlbumRow
  nextId : Nat
deriving DecidableEq, Repr

/-- An empty `albums` table. -/
def AlbumsDB.empty : AlbumsDB := ⟨[], 1⟩

/-- Models `INSERT INTO albums (name, group_id) VALUES (?, ?)`. -/
def insertAlbum (db : AlbumsDB) (name : String) (gid : Nat) : AlbumsDB :=
  ⟨db.rows ++ [⟨db.nextId, name, gid⟩], db.nextId + 1⟩

/-- Models `DELETE FROM albums WHERE name = ?`. -/
def deleteAlbumByName (db : AlbumsDB) (name : String) : AlbumsDB :=
  ⟨db.rows.filter (fun r => decide (r.name ≠ name)), db.nextId⟩

/-- Models `os.path.dirname` on a relative path in components: drop the file
name. -/
def dirname (p : FPath) : FPath := p.dropLast

/-- Models `os.path.normpath` restricted to the inputs that occur here: the paths are
`os.path.relpath` outputs, hence already clean (no `.` or `..` components, no
doubled separators), so `normpath` is the identity except that the empty
string normalizes to `"."`. -/
def normpath (p : FPath) : FPath := if p = [] then ["."] else p

/-- Models the replacement of `os.sep` by the display delimiter (space,
hyphen, space) on a clean path: join the components with that delimiter. -/
def sepJoin (p : FPath) : String := String.intercalate " - " p

/-- The path string with `os.sep` (`/` on the target system) separators, used
as the `sorted()` key in `initialize_albums`. -/
def slashJoin (p : FPath) : String := String.intercalate "/" p

/-- The album key used by `initialize_albums` and `get_album_photo_counts`:
the dirname with separators replaced, and no `normpath` applied. -/
def album_key_plain (p : FPath) : String := sepJoin (dirname p)

/-- The album key used by `check_removed_albums`: the normalized dirname with
separators replaced. -/
def album_key_reconcile (p : FPath) : String := sepJoin (normpath (dirname p))

/-- Models `initialize_albums`: collect the distinct dirnames of all paths in
the files table, sort them alphabetically as path strings, replace the
separator by the display delimiter, and insert each with `group_id = 1`. -/
def initialize_albums (filesDB : FilesDB) (albumsDB : AlbumsDB) : AlbumsDB :=
  let paths := filesDB.rows.map (fun r => r.path)
  let albums := (paths.map dirname).dedup
  let sorted_albums := albums.mergeSort (fun a b => decide (slashJoin a ≤ slashJoin b))
  let formatted_albums := sorted_albums.map sepJoin
  formatted_albums.foldl (fun adb name => insertAlbum adb name 1) albumsDB

/-- Models `check_removed_albums(file_entries)`: compute the current album keys from
the scan entries, and delete every persisted album name that is not among
them.  No album is ever inserted here. -/
def check_removed_albums (current : List ScanEntry) (adb : AlbumsDB) : AlbumsDB :=
  let current_albums := current.map (fun e => album_key_reconcile e.path)
  let existing_albums := adb.rows.map (fun r => r.name)
  let albums_to_remove := existing_albums.filter (fun a => decide (a ∉ current_albums))
  albums_to_remove.foldl (fun d a => deleteAlbumByName d a) adb

/-- Models `get_album_photo_counts(file_entries)`: a `defaultdict(int)`
counting the entries per album key (dirname with separators replaced). -/
def get_album_photo_counts (entries : List ScanEntry) : List (String × Nat) :=
  entries.foldl (fun acc e =>
    let k := album_key_plain e.path
    dictInsert acc k (((dictLookup acc k).getD 0) + 1)) []

/-- The outcome of the non-first-run part of `main`: the classification
lists, the final tables, whether `sendalerts` was invoked (it is called
exactly when `files_new` is nonempty), and the per-album counts passed to
it. -/
structure PassResult where
  current : List ScanEntry
  newFiles : List ScanEntry
  movedFiles : List MovedFile
  deletedPaths : List FPath
  filesDB : FilesDB
  albumsDB : AlbumsDB
  notified : Bool
  alertCounts : List (String × Nat)
deriving Repr

/-- One reconciliation pass over an explicit task list, following `main` after
`load_prior_state` returned a nonempty prior state: scan (mutating the files
table), album removal check, then classification in the order
`new`, `move`, `delete`, then alerts for the new files. -/
def reconcile_tasks (tasks : List ScanTask) (db0 : FilesDB) (adb0 : AlbumsDB)
    (dbFailures : List FPath) : PassResult :=
  let prior := load_prior_state db0
  let scan := get_file_list db0 tasks dbFailures
  let current := scan.1
  let adb1 := check_removed_albums current adb0
  let files_new := detect_files_new current prior
  let move := detect_files_move current prior scan.2
  let del := detect_files_delete current prior move.2
  ⟨current, files_new, move.1, del.1, del.2, adb1,
    !files_new.isEmpty,
    if files_new.isEmpty then [] else get_album_photo_counts files_new⟩

/-- A reconciliation pass over a directory tree. -/
def reconcile_pass (root : List FSTree) (db0 : FilesDB) (adb0 : AlbumsDB)
    (dbFailures : List FPath) : PassResult :=
  reconcile_tasks (get_file_tasks root) db0 adb0 dbFailures

/-- The observable outcome of one `main` invocation: the process exit code,
the final tables, the scan result (`none` when no scan ran), the
reconciliation result (`none` on abort and on the first run), and whether any
notification was dispatched. -/
structure MainResult where
  exitCode : Nat
  filesDB : FilesDB
  albumsDB : AlbumsDB
  scanned : Option (List ScanEntry)
  passOutcome : Option PassResult
  notified : Bool
deriving Repr

/-- Models `main`: abort with exit code 1 when the watch root does not exist, before
any scan or table mutation.  Otherwise load the prior state; when it is empty
(first run) scan the tree into the files table, build the albums table with
`initialize_albums`, hand over to the interactive management tool (external
collaborator, no effect modeled) and exit 0 without classification or
notification; otherwise run the reconciliation pass and exit 0.
`initialize_database` and `install_requirements` only create tables and check
the environment, leaving all rows unchanged, and are not modeled further. -/
def pixelsentinel_main (rootExists : Bool) (root : List FSTree) (db0 : FilesDB)
    (adb0 : AlbumsDB) (dbFailures : List FPath) : MainResult :=
  if rootExists then
    let prior := load_prior_state db0
    if prior = [] then
      let scan := get_file_list db0 (get_file_tasks root) dbFailures
      let adb1 := initialize_albums scan.2 adb0
      ⟨0, scan.2, adb1, some scan.1, none, false⟩
    else
      let r := reconcile_pass root db0 adb0 dbFailures
      ⟨0, r.filesDB, r.albumsDB, some r.current, some r, r.notified⟩
  else ⟨1, db0, adb0, none, none, false⟩

/-- The data of a files-table row without its rowid. -/
def rowData (r : FileRow) : FPath × Checksum × Nat := (r.path, r.checksum, r.timestamp)

/-- The row data a successfully processed fresh task produces. -/
def taskData (t : ScanTask) : FPath × Checksum × Nat :=
  (t.path, calculate_checksum t.content, t.mtime)

/-- The scan entry a successfully processed task produces. -/
def entryOf (t : ScanTask) : ScanEntry := ⟨t.path, calculate_checksum t.content, t.mtime⟩

/-- The rows a fresh scan appends for a task list, with rowids from `n`. -/
def newRows (n : Nat) : List ScanTask → List FileRow
  | [] => []
  | t :: ts => ⟨n, t.path, calculate_checksum t.content, t.mtime⟩ :: newRows (n + 1) ts

/-! ### General lemmas about the dictionary and table models -/

theorem dictInsert_fresh {α β : Type} [DecidableEq α] (l : List (α × β)) (k : α) (v : β)
    (h : k ∉ l.map Prod.fst) : dictInsert l k v = l ++ [(k, v)] := by
  have hc : ¬ (l.any (fun kv => decide (kv.1 = k)) = true) := by
    simp only [List.any_eq_true, decide_eq_true_eq]
    rintro ⟨x, hx, hk⟩
    exact h (hk ▸ List.mem_map.mpr ⟨x, hx, rfl⟩)
  unfold dictInsert
  rw [if_neg hc]

theorem dictLookup_nil {α β : Type} [DecidableEq α] (k : α) :
    dictLookup ([] : List (α × β)) k = none := rfl

theorem dictLookup_of_mem {α β : Type} [DecidableEq α] {l : List (α × β)} {k : α} {v : β}
    (hmem : (k, v) ∈ l) (hnd : (l.map Prod.fst).Nodup) : dictLookup l k = some v := by
  induction l with
  | nil => cases hmem
  | cons x xs ih =>
      rcases List.mem_cons.mp hmem with h | h
      · subst h
        simp [dictLookup, List.find?]
      · simp only [List.map_cons, List.nodup_cons] at hnd
        have hne : x.1 ≠ k := by
          intro he
          exact hnd.1 (he ▸ List.mem_map.mpr ⟨(k, v), h, rfl⟩)
        simp only [dictLookup]
        rw [List.find?_cons_of_neg _ (by simpa using hne)]
        exact ih h hnd.2

theorem foldl_dictInsert_fresh {α β γ : Type} [DecidableEq α] (key : γ → α) (val : γ → β) :
    ∀ (l : List γ) (acc : List (α × β)), (l.map key).Nodup →
    (∀ x ∈ l, key x ∉ acc.map Prod.fst) →
    l.foldl (fun a x => dictInsert a (key x) (val x)) acc =
      acc ++ l.map (fun x => (key x, val x)) := by
  intro l
  induction l with
  | nil => simp
  | cons x xs ih =>
      intro acc hnd hfresh
      simp only [List.map_cons, List.nodup_cons] at hnd
      simp only [List.foldl_cons]
      rw [dictInsert_fresh _ _ _ (hfresh x (List.mem_cons_self x xs))]
      rw [ih (acc ++ [(key x, val x)]) hnd.2]
      · simp
      · intro y hy
        simp only [List.map_append, List.mem_append, List.map_cons, List.map_nil,
          List.mem_singleton, not_or]
        refine ⟨hfresh y (List.mem_cons_of_mem x hy), ?_⟩
        intro he
        exact hnd.1 (he ▸ List.mem_map.mpr ⟨y, hy, rfl⟩)

theorem selectByPath_mk (rows : List FileRow) (n : Nat) (p : FPath) :
    selectByPath ⟨rows, n⟩ p =
      (rows.filter (fun r => decide (r.path = p))).map (fun r => (r.checksum, r.timestamp)) := rfl

theorem selectByPath_nil_of_fresh (rows : List FileRow) (n : Nat) (p : FPath)
    (h : ∀ r ∈ rows, r.path ≠ p) : selectByPath ⟨rows, n⟩ p = [] := by
  rw [selectByPath_mk]
  rw [List.filter_eq_nil_iff.mpr]
  · rfl
  · intro r hr
    simpa using h r hr

theorem newRows_map_path (n : Nat) (ts : List ScanTask) :
    (newRows n ts).map (fun r => r.path) = ts.map (fun t => t.path) := by
  induction ts generalizing n with
  | nil => rfl
  | cons t ts ih => simp [newRows, ih]

theorem newRows_map_rowData (n : Nat) (ts : List ScanTask) :
    (newRows n ts).map rowData = ts.map taskData := by
  induction ts generalizing n with
  | nil => rfl
  | cons t ts ih => simp [newRows, ih, rowData, taskData]

theorem selectByPath_newRows (ts : List ScanTask) (n m : Nat) (t : ScanTask)
    (hnd : (ts.map (fun t => t.path)).Nodup) (hmem : t ∈ ts) :
    selectByPath ⟨newRows n ts, m⟩ t.path = [(calculate_checksum t.content, t.mtime)] := by
  induction ts generalizing n with
  | nil => cases hmem
  | cons t' ts ih =>
      simp only [List.map_cons, List.nodup_cons] at hnd
      rcases List.mem_cons.mp hmem with h | h
      · subst h
        rw [newRows, selectByPath_mk, List.filter_cons_of_pos (by simp)]
        rw [List.filter_eq_nil_iff.mpr, List.map_cons, List.map_nil]
        intro r hr
        have : r.path ∈ ts.map (fun t => t.path) := by
          rw [← newRows_map_path (n + 1) ts]
          exact List.mem_map.mpr ⟨r, hr, rfl⟩
        simp only [decide_eq_true_eq]
        intro he
        exact hnd.1 (he ▸ this)
      · have hne : t'.path ≠ t.path := by
          intro he
          exact hnd.1 (he ▸ List.mem_map.mpr ⟨t, h, rfl⟩)
        rw [newRows, selectByPath_mk, List.filter_cons_of_neg (by simpa using hne)]
        exact ih (n + 1) hnd.2 h

theorem get_file_list_fresh :
    ∀ (tasks : List ScanTask) (db : FilesDB),
    (∀ t ∈ tasks, ∀ r ∈ db.rows, r.path ≠ t.path) →
    (tasks.map (fun t => t.path)).Nodup →
    (∀ t ∈ tasks, t.readable = true) →
    get_file_list db tasks [] =
      (tasks.map entryOf, ⟨db.rows ++ newRows db.nextId tasks, db.nextId + tasks.length⟩) := by
  intro tasks
  induction tasks with
  | nil =>
      intro db _ _ _
      simp [get_file_list, newRows]
  | cons t ts ih =>
      intro db hfresh hnd hread
      simp only [List.map_cons, List.nodup_cons] at hnd
      have hsel : selectByPath db t.path = [] := by
        rcases db with ⟨rows, n⟩
        exact selectByPath_nil_of_fresh rows n t.path
          (fun r hr => hfresh t (List.mem_cons_self t ts) r hr)
      have hr : t.readable = true := hread t (List.mem_cons_self t ts)
      have hstep : process_file db t.path t.content t.mtime t.readable
          (decide (t.path ∉ ([] : List FPath))) =
          (some (entryOf t), insertOrReplaceFile db t.path (calculate_checksum t.content) t.mtime) := by
        rw [process_file.eq_def, hsel, hr]
        simp [entryOf]
      rw [get_file_list, hstep]
      rw [ih (insertOrReplaceFile db t.path (calculate_checksum t.content) t.mtime) ?hfr hnd.2
        (fun x hx => hread x (List.mem_cons_of_mem t hx))]
      case hfr =>
        intro x hx r hrr
        simp only [insertOrReplaceFile, List.mem_append, List.mem_singleton] at hrr
        rcases hrr with hrr | hrr
        · exact hfresh x (List.mem_cons_of_mem t hx) r hrr
        · subst hrr
          intro he
          have he' : t.path = x.path := he
          apply hnd.1
          rw [he']
          exact List.mem_map.mpr ⟨x, hx, rfl⟩
      simp only [insertOrReplaceFile, newRows, Prod.mk.injEq, FilesDB.mk.injEq, List.map_cons,
        List.append_assoc, List.singleton_append, List.length_cons]
      refine ⟨trivial, trivial, by omega⟩

theorem get_file_list_synced :
    ∀ (tasks : List ScanTask) (db : FilesDB),
    (∀ t ∈ tasks, selectByPath db t.path = [(calculate_checksum t.content, t.mtime)]) →
    get_file_list db tasks [] = (tasks.map entryOf, db) := by
  intro tasks
  induction tasks with
  | nil =>
      intro db _
      simp [get_file_list]
  | cons t ts ih =>
      intro db hsel
      have hstep : process_file db t.path t.content t.mtime t.readable
          (decide (t.path ∉ ([] : List FPath))) = (some (entryOf t), db) := by
        rw [process_file.eq_def, hsel t (List.mem_cons_self t ts)]
        simp [entryOf]
      rw [get_file_list, hstep]
      rw [ih db (fun x hx => hsel x (List.mem_cons_of_mem t hx))]
      rfl

theorem load_prior_state_eq (db : FilesDB) (h : (db.rows.map (fun r => r.path)).Nodup) :
    load_prior_state db = db.rows.map (fun r => (r.path, (r.checksum, r.timestamp))) := by
  unfold load_prior_state
  rw [foldl_dictInsert_fresh (fun r => r.path) (fun r => (r.checksum, r.timestamp))
    db.rows [] h (by simp)]
  simp

theorem prior_checksums_eq (prior : List (FPath × Checksum × Nat))
    (h : (prior.map (fun kv => kv.2.1)).Nodup) :
    prior_checksums prior = prior.map (fun kv => (kv.2.1, kv.1)) := by
  unfold prior_checksums
  rw [foldl_dictInsert_fresh (fun kv => kv.2.1) (fun kv => kv.1) prior [] h (by simp)]
  simp

theorem newRows_map_prior (n : Nat) (ts : List ScanTask) :
    (newRows n ts).map (fun r => (r.path, (r.checksum, r.timestamp))) =
      ts.map (fun t => (t.path, (calculate_checksum t.content, t.mtime))) := by
  induction ts generalizing n with
  | nil => rfl
  | cons t ts ih => simp [newRows, ih]

theorem detect_files_new_synced (tasks : List ScanTask)
    (hnd : (tasks.map (fun t => t.path)).Nodup) :
    detect_files_new (tasks.map entryOf)
      (tasks.map (fun t => (t.path, (calculate_checksum t.content, t.mtime)))) = [] := by
  simp only [detect_files_new]
  rw [List.filter_eq_nil_iff.mpr]
  intro e he
  rcases List.mem_map.mp he with ⟨t, ht, rfl⟩
  have hk : (List.map Prod.fst
      (tasks.map (fun t => (t.path, (calculate_checksum t.content, t.mtime))))).Nodup := by
    rw [List.map_map]
    exact hnd
  have hl : dictLookup (tasks.map (fun t => (t.path, (calculate_checksum t.content, t.mtime))))
      (entryOf t).path = some (calculate_checksum t.content, t.mtime) :=
    dictLookup_of_mem (List.mem_map.mpr ⟨t, ht, rfl⟩) hk
  rw [hl]
  simp [entryOf]

theorem detect_files_move_synced (tasks : List ScanTask) (db : FilesDB)
    (hndc : (tasks.map (fun t => t.content)).Nodup) :
    detect_files_move (tasks.map entryOf)
      (tasks.map (fun t => (t.path, (calculate_checksum t.content, t.mtime)))) db = ([], db) := by
  have hpcs : prior_checksums
      (tasks.map (fun t => (t.path, (calculate_checksum t.content, t.mtime)))) =
      tasks.map (fun t => (calculate_checksum t.content, t.path)) := by
    rw [prior_checksums_eq]
    · rw [List.map_map]
      rfl
    · rw [List.map_map]
      simpa [calculate_checksum, Function.comp] using hndc
  simp only [detect_files_move, hpcs]
  have hmoved : (tasks.map entryOf).filterMap (fun e =>
      match dictLookup (tasks.map (fun t => (calculate_checksum t.content, t.path))) e.checksum with
      | some oldp => if oldp ≠ e.path then some (⟨oldp, e.path⟩ : MovedFile) else none
      | none => none) = [] := by
    rw [List.filterMap_eq_nil_iff.mpr]
    intro e he
    rcases List.mem_map.mp he with ⟨t, ht, rfl⟩
    have hk : (List.map Prod.fst
        (tasks.map (fun t => (calculate_checksum t.content, t.path)))).Nodup := by
      rw [List.map_map]
      simpa [calculate_checksum, Function.comp] using hndc
    have hl : dictLookup (tasks.map (fun t => (calculate_checksum t.content, t.path)))
        (entryOf t).checksum = some t.path :=
      dictLookup_of_mem (List.mem_map.mpr ⟨t, ht, rfl⟩) hk
    rw [hl]
    simp [entryOf]
  rw [hmoved]
  rfl

theorem detect_files_delete_synced (tasks : List ScanTask) (db : FilesDB) :
    detect_files_delete (tasks.map entryOf)
      (tasks.map (fun t => (t.path, (calculate_checksum t.content, t.mtime)))) db = ([], db) := by
  simp only [detect_files_delete]
  have hdel : (dictKeys
      (tasks.map (fun t => (t.path, (calculate_checksum t.content, t.mtime))))).filter
      (fun p => decide (p ∉ (tasks.map entryOf).map (fun e => e.path))) = [] := by
    rw [List.filter_eq_nil_iff.mpr]
    intro p hp
    simp only [dictKeys, List.map_map] at hp
    rcases List.mem_map.mp hp with ⟨t, ht, rfl⟩
    simp only [decide_eq_true_eq, not_not, List.map_map]
    exact List.mem_map.mpr ⟨t, ht, rfl⟩
  rw [hdel]
  rfl

theorem foldl_deleteAlbumByName (ns : List String) :
    ∀ (adb : AlbumsDB), ns.foldl (fun d a => deleteAlbumByName d a) adb =
      ⟨adb.rows.filter (fun r => decide (r.name ∉ ns)), adb.nextId⟩ := by
  induction ns with
  | nil =>
      intro adb
      simp
  | cons a ns ih =>
      intro adb
      rw [List.foldl_cons, ih]
      simp only [deleteAlbumByName]
      congr 1
      rw [List.filter_filter]
      apply List.filter_congr
      intro r _
      by_cases h1 : r.name = a <;> by_cases h2 : r.name ∈ ns <;> simp [h1, h2]

theorem check_removed_albums_eq (current : List ScanEntry) (adb : AlbumsDB) :
    check_removed_albums current adb =
      ⟨adb.rows.filter (fun r =>
         decide (r.name ∈ current.map (fun e => album_key_reconcile e.path))), adb.nextId⟩ := by
  simp only [check_removed_albums]
  rw [foldl_deleteAlbumByName]
  congr 1
  apply List.filter_congr
  intro r hr
  have hmem : r.name ∈ adb.rows.map (fun r => r.name) := List.mem_map.mpr ⟨r, hr, rfl⟩
  by_cases h : r.name ∈ current.map (fun e => album_key_reconcile e.path)
  · have hnr : r.name ∉ (adb.rows.map (fun r => r.name)).filter
        (fun a => decide (a ∉ current.map (fun e => album_key_reconcile e.path))) := by
      intro hc
      have hpred := (List.mem_filter.mp hc).2
      simp only [decide_eq_true_eq] at hpred
      exact hpred h
    rw [decide_eq_true hnr, decide_eq_true h]
  · have hin : r.name ∈ (adb.rows.map (fun r => r.name)).filter
        (fun a => decide (a ∉ current.map (fun e => album_key_reconcile e.path))) :=
      List.mem_filter.mpr ⟨hmem, decide_eq_true h⟩
    rw [decide_eq_false (not_not_intro hin), decide_eq_false h]

theorem foldl_insertAlbum_names (ns : List String) :
    ∀ (adb : AlbumsDB), ((ns.foldl (fun a n => insertAlbum a n 1) adb).rows.map (fun r => r.name)) =
      adb.rows.map (fun r => r.name) ++ ns := by
  induction ns with
  | nil =>
      intro adb
      simp
  | cons n ns ih =>
      intro adb
      rw [List.foldl_cons, ih]
      simp [insertAlbum]

theorem mem_initialize_albums (filesDB : FilesDB) (adb : AlbumsDB) (k : String) :
    k ∈ (initialize_albums filesDB adb).rows.map (fun r => r.name) ↔
      k ∈ adb.rows.map (fun r => r.name) ∨
      k ∈ filesDB.rows.map (fun r => album_key_plain r.path) := by
  simp only [initialize_albums]
  rw [foldl_insertAlbum_names]
  simp only [List.mem_append, List.mem_map, List.mem_mergeSort, List.mem_dedup,
    album_key_plain]
  aesop

/-! ### Claim theorems -/

/-- Claim C1, counterexample: the claim says that after every reconciliation
pass the persisted album keys equal the derived grouping keys.  On a second
run over a tree where a new directory `B` has appeared, `B` is among the
derived keys of the scan but no album record for it exists afterwards: albums
are only ever deleted on later passes, never inserted. -/
theorem C1_counterexample :
    "B" ∈ (reconcile_pass
        [.dir "A" [.file "1.jpg" 5 1 true], .dir "B" [.file "2.jpg" 6 2 true]]
        ⟨[⟨1, ["A", "1.jpg"], 5, 1⟩], 2⟩ ⟨[⟨1, "A", 1⟩], 2⟩ []).current.map
        (fun e => album_key_reconcile e.path) ∧
    "B" ∉ (reconcile_pass
        [.dir "A" [.file "1.jpg" 5 1 true], .dir "B" [.file "2.jpg" 6 2 true]]
        ⟨[⟨1, ["A", "1.jpg"], 5, 1⟩], 2⟩ ⟨[⟨1, "A", 1⟩], 2⟩ []).albumsDB.rows.map
        (fun r => r.name) := by
  have h : reconcile_pass
      [.dir "A" [.file "1.jpg" 5 1 true], .dir "B" [.file "2.jpg" 6 2 true]]
      ⟨[⟨1, ["A", "1.jpg"], 5, 1⟩], 2⟩ ⟨[⟨1, "A", 1⟩], 2⟩ [] =
      reconcile_tasks [⟨["A", "1.jpg"], 5, 1, true⟩, ⟨["B", "2.jpg"], 6, 2, true⟩]
        ⟨[⟨1, ["A", "1.jpg"], 5, 1⟩], 2⟩ ⟨[⟨1, "A", 1⟩], 2⟩ [] := by
    show reconcile_tasks _ _ _ _ = _
    congr 1
    simp +decide [get_file_tasks, walkSubdirs, dirFiles, excluded_dirs, excluded_files]
  rw [h]
  constructor
  · decide
  · decide

/-- Claim C1 (amended): after every reconciliation pass, the persisted album
set equals the prior persisted set restricted to the derived (normalized)
grouping keys of the current scan entries: albums whose key is no longer
derivable are deleted (no orphans among the survivors), but no album is
inserted for a key present only in the derived set — album insertion happens
only on the first run. -/
theorem C1_albums_restricted (tasks : List ScanTask) (db0 : FilesDB) (adb0 : AlbumsDB)
    (dbFailures : List FPath) :
    (reconcile_tasks tasks db0 adb0 dbFailures).albumsDB =
      ⟨adb0.rows.filter (fun r => decide (r.name ∈
          (get_file_list db0 tasks dbFailures).1.map (fun e => album_key_reconcile e.path))),
        adb0.nextId⟩ := by
  simp only [reconcile_tasks]
  exact check_removed_albums_eq _ _

/-- Claim C3, code bug: the `files` schema has no UNIQUE constraint on `path`,
so the `INSERT OR REPLACE` in `process_file` never replaces and a re-scan of a
modified file appends a second row with the same relative path — the store
does not maintain at most one FileRecord per relative path. -/
theorem C3_duplicate_path_rows :
    process_file ⟨[⟨1, ["a.jpg"], 5, 1⟩], 2⟩ ["a.jpg"] 7 2 true true =
      (some ⟨["a.jpg"], 7, 2⟩, ⟨[⟨1, ["a.jpg"], 5, 1⟩, ⟨2, ["a.jpg"], 7, 2⟩], 3⟩) ∧
    ((process_file ⟨[⟨1, ["a.jpg"], 5, 1⟩], 2⟩ ["a.jpg"] 7 2 true true).2.rows.filter
        (fun r => decide (r.path = ["a.jpg"]))).length = 2 := by
  constructor
  · rfl
  · decide

/-- Claim C5, code bug: when a path is present with a changed modified time,
`process_file` re-hashes and executes the `INSERT OR REPLACE`, but because
`files.path` has no UNIQUE constraint the write appends a new row instead of
replacing: the recorded row that every later lookup reads first still carries
the old checksum and timestamp, so the claimed upsert of
`(path, fingerprint, modified time)` never takes effect. -/
theorem C5_insert_does_not_replace :
    (process_file ⟨[⟨1, ["a.jpg"], 5, 1⟩], 2⟩ ["a.jpg"] 7 2 true true).1 =
      some ⟨["a.jpg"], 7, 2⟩ ∧
    selectByPath (process_file ⟨[⟨1, ["a.jpg"], 5, 1⟩], 2⟩ ["a.jpg"] 7 2 true true).2
        ["a.jpg"] = [(5, 1), (7, 2)] ∧
    (selectByPath (process_file ⟨[⟨1, ["a.jpg"], 5, 1⟩], 2⟩ ["a.jpg"] 7 2 true true).2
        ["a.jpg"]).head? = some (5, 1) := by
  refine ⟨rfl, rfl, rfl⟩

/-- Claim C8: when the watch root does not exist, `main` exits with code 1
before any scan or store mutation: the tables are returned untouched, no scan
result exists and no reconciliation or notification happens. -/
theorem C8_missing_root_aborts (root : List FSTree) (db0 : FilesDB) (adb0 : AlbumsDB)
    (dbFailures : List FPath) :
    pixelsentinel_main false root db0 adb0 dbFailures = ⟨1, db0, adb0, none, none, false⟩ := rfl

/-- Claim C2, counterexample: a file renamed from `a.jpg` to `b.jpg` with
unchanged bytes and mtime is classified as Moved, but contrary to the claim it
also appears in the Added set (its new path is absent from the prior state)
and its old path appears in the Deleted set. -/
theorem C2_counterexample :
    (reconcile_tasks [⟨["b.jpg"], 5, 1, true⟩] ⟨[⟨1, ["a.jpg"], 5, 1⟩], 2⟩
        AlbumsDB.empty []).movedFiles = [⟨["a.jpg"], ["b.jpg"]⟩] ∧
    (reconcile_tasks [⟨["b.jpg"], 5, 1, true⟩] ⟨[⟨1, ["a.jpg"], 5, 1⟩], 2⟩
        AlbumsDB.empty []).newFiles = [⟨["b.jpg"], 5, 1⟩] ∧
    (reconcile_tasks [⟨["b.jpg"], 5, 1, true⟩] ⟨[⟨1, ["a.jpg"], 5, 1⟩], 2⟩
        AlbumsDB.empty []).deletedPaths = [["a.jpg"]] := by
  refine ⟨rfl, rfl, rfl⟩

/-- Claim C2 (amended): a file renamed without altering its bytes is detected
as Moved and the rename rewrites the stored record to the new path with the
original fingerprint and timestamp preserved; however the file also appears in
the Added set and its old path in the Deleted set, and because the scan has
already inserted a fresh record for the new path, the store afterwards holds
two records for the new path (the delete of the old path removes nothing). -/
theorem C2_move_detection (p q : FPath) (c : Checksum) (t tq : Nat) (adb0 : AlbumsDB)
    (hpq : p ≠ q) :
    (reconcile_tasks [⟨q, c, tq, true⟩] ⟨[⟨1, p, c, t⟩], 2⟩ adb0 []).movedFiles = [⟨p, q⟩] ∧
    (reconcile_tasks [⟨q, c, tq, true⟩] ⟨[⟨1, p, c, t⟩], 2⟩ adb0 []).filesDB.rows =
      [⟨1, q, c, t⟩, ⟨2, q, c, tq⟩] ∧
    (reconcile_tasks [⟨q, c, tq, true⟩] ⟨[⟨1, p, c, t⟩], 2⟩ adb0 []).newFiles =
      [⟨q, c, tq⟩] ∧
    (reconcile_tasks [⟨q, c, tq, true⟩] ⟨[⟨1, p, c, t⟩], 2⟩ adb0 []).deletedPaths = [p] := by
  have hqp : q ≠ p := Ne.symm hpq
  have hprior : load_prior_state ⟨[⟨1, p, c, t⟩], 2⟩ = [(p, (c, t))] := by
    simp [load_prior_state, dictInsert]
  have hsel : selectByPath ⟨[⟨1, p, c, t⟩], 2⟩ q = [] := by
    simp [selectByPath, hpq]
  have hscan : get_file_list ⟨[⟨1, p, c, t⟩], 2⟩ [⟨q, c, tq, true⟩] [] =
      ([⟨q, c, tq⟩], ⟨[⟨1, p, c, t⟩, ⟨2, q, c, tq⟩], 3⟩) := by
    have hstep : process_file ⟨[⟨1, p, c, t⟩], 2⟩ (⟨q, c, tq, true⟩ : ScanTask).path
        (⟨q, c, tq, true⟩ : ScanTask).content (⟨q, c, tq, true⟩ : ScanTask).mtime
        (⟨q, c, tq, true⟩ : ScanTask).readable
        (decide ((⟨q, c, tq, true⟩ : ScanTask).path ∉ ([] : List FPath))) =
        (some ⟨q, c, tq⟩, ⟨[⟨1, p, c, t⟩, ⟨2, q, c, tq⟩], 3⟩) := by
      rw [process_file.eq_def]
      simp only [hsel]
      simp [insertOrReplaceFile, calculate_checksum]
    rw [get_file_list, hstep, get_file_list]
  have hnew : detect_files_new [⟨q, c, tq⟩] [(p, (c, t))] = [⟨q, c, tq⟩] := by
    simp [detect_files_new, dictLookup, hpq]
  have hpcs : prior_checksums [(p, (c, t))] = [(c, p)] := by
    simp [prior_checksums, dictInsert]
  have hmove : detect_files_move [⟨q, c, tq⟩] [(p, (c, t))] ⟨[⟨1, p, c, t⟩, ⟨2, q, c, tq⟩], 3⟩ =
      ([⟨p, q⟩], ⟨[⟨1, q, c, t⟩, ⟨2, q, c, tq⟩], 3⟩) := by
    simp only [detect_files_move, hpcs]
    simp [dictLookup, hpq, updateFilePath, hqp]
  have hdel : detect_files_delete [⟨q, c, tq⟩] [(p, (c, t))] ⟨[⟨1, q, c, t⟩, ⟨2, q, c, tq⟩], 3⟩ =
      ([p], ⟨[⟨1, q, c, t⟩, ⟨2, q, c, tq⟩], 3⟩) := by
    simp [detect_files_delete, dictKeys, hpq, deleteFilePath, hqp]
  have hpass : reconcile_tasks [⟨q, c, tq, true⟩] ⟨[⟨1, p, c, t⟩], 2⟩ adb0 [] =
      ⟨[⟨q, c, tq⟩], [⟨q, c, tq⟩], [⟨p, q⟩], [p], ⟨[⟨1, q, c, t⟩, ⟨2, q, c, tq⟩], 3⟩,
        check_removed_albums [⟨q, c, tq⟩] adb0, true, get_album_photo_counts [⟨q, c, tq⟩]⟩ := by
    simp only [reconcile_tasks, hprior, hscan, hnew, hmove, hdel]
    rfl
  rw [hpass]
  exact ⟨rfl, rfl, rfl, rfl⟩

/-- Claim C2, witness: the amended move-detection theorem instantiated at the
concrete rename of `a.jpg` to `b.jpg` with bytes `5` and mtime `1`. -/
theorem C2_move_detection_witness :
    (reconcile_tasks [⟨["b.jpg"], 5, 1, true⟩] ⟨[⟨1, ["a.jpg"], 5, 1⟩], 2⟩
        AlbumsDB.empty []).movedFiles = [⟨["a.jpg"], ["b.jpg"]⟩] ∧
    (reconcile_tasks [⟨["b.jpg"], 5, 1, true⟩] ⟨[⟨1, ["a.jpg"], 5, 1⟩], 2⟩
        AlbumsDB.empty []).filesDB.rows =
      [⟨1, ["b.jpg"], 5, 1⟩, ⟨2, ["b.jpg"], 5, 1⟩] ∧
    (reconcile_tasks [⟨["b.jpg"], 5, 1, true⟩] ⟨[⟨1, ["a.jpg"], 5, 1⟩], 2⟩
        AlbumsDB.empty []).newFiles = [⟨["b.jpg"], 5, 1⟩] ∧
    (reconcile_tasks [⟨["b.jpg"], 5, 1, true⟩] ⟨[⟨1, ["a.jpg"], 5, 1⟩], 2⟩
        AlbumsDB.empty []).deletedPaths = [["a.jpg"]] :=
  C2_move_detection ["a.jpg"] ["b.jpg"] 5 1 1 AlbumsDB.empty (by decide)

/-- Claim C4, counterexample: the claim quantifies over every filesystem
state, but with two files of identical bytes the second run over the
unchanged tree reports a spurious move (the reverse fingerprint index is
last-write-wins) and rewrites the store, leaving two records under one path. -/
theorem C4_counterexample :
    get_file_tasks [.file "a.jpg" 7 1 true, .file "b.jpg" 7 1 true] =
      [⟨["a.jpg"], 7, 1, true⟩, ⟨["b.jpg"], 7, 1, true⟩] ∧
    (reconcile_tasks [⟨["a.jpg"], 7, 1, true⟩, ⟨["b.jpg"], 7, 1, true⟩]
        (get_file_list FilesDB.empty [⟨["a.jpg"], 7, 1, true⟩, ⟨["b.jpg"], 7, 1, true⟩] []).2
        AlbumsDB.empty []).movedFiles = [⟨["b.jpg"], ["a.jpg"]⟩] ∧
    (reconcile_tasks [⟨["a.jpg"], 7, 1, true⟩, ⟨["b.jpg"], 7, 1, true⟩]
        (get_file_list FilesDB.empty [⟨["a.jpg"], 7, 1, true⟩, ⟨["b.jpg"], 7, 1, true⟩] []).2
        AlbumsDB.empty []).filesDB ≠
      (get_file_list FilesDB.empty [⟨["a.jpg"], 7, 1, true⟩, ⟨["b.jpg"], 7, 1, true⟩] []).2 := by
  refine ⟨?_, rfl, by decide⟩
  simp +decide [get_file_tasks, walkSubdirs, dirFiles, excluded_dirs, excluded_files]

/-- Claim C4 (amended): when the scanned files have pairwise distinct relative
paths and pairwise distinct contents (no duplicate fingerprints) and all files
are readable, a first run from an empty store followed by a second run over
the unchanged tree yields empty Added, Moved and Deleted sets on the second
run, and the second run performs no FileRecord mutation: the scan leaves the
store exactly as the first run left it. -/
theorem C4_second_run_idempotent (root : List FSTree) (adb0 : AlbumsDB)
    (hnd : ((get_file_tasks root).map (fun t => t.path)).Nodup)
    (hndc : ((get_file_tasks root).map (fun t => t.content)).Nodup)
    (hread : ∀ t ∈ get_file_tasks root, t.readable = true) :
    ∃ db1 : FilesDB,
      get_file_list FilesDB.empty (get_file_tasks root) [] =
        ((get_file_tasks root).map entryOf, db1) ∧
      get_file_list db1 (get_file_tasks root) [] = ((get_file_tasks root).map entryOf, db1) ∧
      (reconcile_tasks (get_file_tasks root) db1 adb0 []).newFiles = [] ∧
      (reconcile_tasks (get_file_tasks root) db1 adb0 []).movedFiles = [] ∧
      (reconcile_tasks (get_file_tasks root) db1 adb0 []).deletedPaths = [] ∧
      (reconcile_tasks (get_file_tasks root) db1 adb0 []).filesDB = db1 := by
  set tasks := get_file_tasks root with htasks
  have h1 : get_file_list FilesDB.empty tasks [] =
      (tasks.map entryOf, ⟨newRows 1 tasks, 1 + tasks.length⟩) := by
    have := get_file_list_fresh tasks FilesDB.empty (by simp [FilesDB.empty]) hnd hread
    simpa [FilesDB.empty] using this
  have hsel : ∀ t ∈ tasks, selectByPath ⟨newRows 1 tasks, 1 + tasks.length⟩ t.path =
      [(calculate_checksum t.content, t.mtime)] :=
    fun t ht => selectByPath_newRows tasks 1 (1 + tasks.length) t hnd ht
  have h2 : get_file_list ⟨newRows 1 tasks, 1 + tasks.length⟩ tasks [] =
      (tasks.map entryOf, ⟨newRows 1 tasks, 1 + tasks.length⟩) :=
    get_file_list_synced tasks ⟨newRows 1 tasks, 1 + tasks.length⟩ hsel
  have hprior : load_prior_state ⟨newRows 1 tasks, 1 + tasks.length⟩ =
      tasks.map (fun t => (t.path, (calculate_checksum t.content, t.mtime))) := by
    rw [load_prior_state_eq]
    · exact newRows_map_prior 1 tasks
    · show ((newRows 1 tasks).map (fun r => r.path)).Nodup
      rw [newRows_map_path]
      exact hnd
  have hnew := detect_files_new_synced tasks hnd
  have hmove := detect_files_move_synced tasks ⟨newRows 1 tasks, 1 + tasks.length⟩ hndc
  have hdel := detect_files_delete_synced tasks ⟨newRows 1 tasks, 1 + tasks.length⟩
  have hpass : reconcile_tasks tasks ⟨newRows 1 tasks, 1 + tasks.length⟩ adb0 [] =
      ⟨tasks.map entryOf, [], [], [], ⟨newRows 1 tasks, 1 + tasks.length⟩,
        check_removed_albums (tasks.map entryOf) adb0, false, []⟩ := by
    simp only [reconcile_tasks, hprior, h2, hnew, hmove, hdel]
    rfl
  refine ⟨⟨newRows 1 tasks, 1 + tasks.length⟩, h1, h2, ?_, ?_, ?_, ?_⟩ <;> rw [hpass]

/-- Claim C4, witness: the amended idempotence theorem instantiated at a
single readable file `a.jpg`. -/
theorem C4_second_run_idempotent_witness :
    (((get_file_tasks [.file "a.jpg" 7 1 true]).map (fun t => t.path)).Nodup ∧
     ((get_file_tasks [.file "a.jpg" 7 1 true]).map (fun t => t.content)).Nodup ∧
     (∀ t ∈ get_file_tasks [.file "a.jpg" 7 1 true], t.readable = true)) ∧
    (∃ db1 : FilesDB,
      get_file_list FilesDB.empty (get_file_tasks [.file "a.jpg" 7 1 true]) [] =
        ((get_file_tasks [.file "a.jpg" 7 1 true]).map entryOf, db1) ∧
      get_file_list db1 (get_file_tasks [.file "a.jpg" 7 1 true]) [] =
        ((get_file_tasks [.file "a.jpg" 7 1 true]).map entryOf, db1) ∧
      (reconcile_tasks (get_file_tasks [.file "a.jpg" 7 1 true]) db1 AlbumsDB.empty []).newFiles = [] ∧
      (reconcile_tasks (get_file_tasks [.file "a.jpg" 7 1 true]) db1 AlbumsDB.empty []).movedFiles = [] ∧
      (reconcile_tasks (get_file_tasks [.file "a.jpg" 7 1 true]) db1 AlbumsDB.empty []).deletedPaths = [] ∧
      (reconcile_tasks (get_file_tasks [.file "a.jpg" 7 1 true]) db1 AlbumsDB.empty []).filesDB = db1) := by
  have htasks : get_file_tasks [.file "a.jpg" 7 1 true] = [⟨["a.jpg"], 7, 1, true⟩] := by
    simp +decide [get_file_tasks, walkSubdirs, dirFiles, excluded_dirs, excluded_files]
  refine ⟨⟨by rw [htasks]; decide, by rw [htasks]; decide, by rw [htasks]; decide⟩, ?_⟩
  exact C4_second_run_idempotent [.file "a.jpg" 7 1 true] AlbumsDB.empty
    (by rw [htasks]; decide) (by rw [htasks]; decide) (by rw [htasks]; decide)

/-- Claim C6, counterexample: with a store failure injected on the insert for
`C/x.jpg`, the error is caught inside `process_file` and the run continues:
the entry is merely skipped, album maintenance still runs (removing album
`"A"`) and alerts are still dispatched for the other new file — the pass does
not treat the store error as fatal. -/
theorem C6_counterexample :
    get_file_tasks [.dir "B" [.file "new.jpg" 6 2 true], .dir "C" [.file "x.jpg" 7 3 true]] =
      [⟨["B", "new.jpg"], 6, 2, true⟩, ⟨["C", "x.jpg"], 7, 3, true⟩] ∧
    (reconcile_tasks [⟨["B", "new.jpg"], 6, 2, true⟩, ⟨["C", "x.jpg"], 7, 3, true⟩]
        ⟨[⟨1, ["A", "old.jpg"], 5, 1⟩], 2⟩ ⟨[⟨1, "A", 1⟩], 2⟩
        [["C", "x.jpg"]]).current.map (fun e => e.path) = [["B", "new.jpg"]] ∧
    (reconcile_tasks [⟨["B", "new.jpg"], 6, 2, true⟩, ⟨["C", "x.jpg"], 7, 3, true⟩]
        ⟨[⟨1, ["A", "old.jpg"], 5, 1⟩], 2⟩ ⟨[⟨1, "A", 1⟩], 2⟩
        [["C", "x.jpg"]]).albumsDB.rows = [] ∧
    (reconcile_tasks [⟨["B", "new.jpg"], 6, 2, true⟩, ⟨["C", "x.jpg"], 7, 3, true⟩]
        ⟨[⟨1, ["A", "old.jpg"], 5, 1⟩], 2⟩ ⟨[⟨1, "A", 1⟩], 2⟩
        [["C", "x.jpg"]]).notified = true := by
  refine ⟨?_, rfl, rfl, rfl⟩
  simp +decide [get_file_tasks, walkSubdirs, dirFiles, excluded_dirs, excluded_files]

/-- Claim C6 (amended): a failing store write inside per-file processing is
rolled back by `db_execute` and re-raised, but the caller `process_file`
catches the exception: the files table is left unchanged and the entry is
skipped, and the reconciliation pass is not aborted — it behaves exactly as
if the failing file were absent from the scan, proceeding to album
maintenance, classification and notification. -/
theorem C6_store_error_skipped (db0 : FilesDB) (adb0 : AlbumsDB) (t : ScanTask)
    (ts : List ScanTask) (fails : List FPath)
    (hsel : selectByPath db0 t.path = []) (hfail : t.path ∈ fails) :
    process_file db0 t.path t.content t.mtime t.readable false = (none, db0) ∧
    reconcile_tasks (t :: ts) db0 adb0 fails = reconcile_tasks ts db0 adb0 fails := by
  have hpf : process_file db0 t.path t.content t.mtime t.readable false = (none, db0) := by
    rw [process_file.eq_def, hsel]
    cases t.readable <;> simp
  refine ⟨hpf, ?_⟩
  have hdec : (decide (t.path ∉ fails)) = false := by simp [hfail]
  have hgl : get_file_list db0 (t :: ts) fails = get_file_list db0 ts fails := by
    rw [get_file_list, hdec, hpf]
  simp only [reconcile_tasks, hgl]

/-- Claim C6, witness: the store-error theorem instantiated at an empty store
and the single task `a.jpg` whose insert fails. -/
theorem C6_store_error_skipped_witness :
    process_file FilesDB.empty ["a.jpg"] 1 1 true false = (none, FilesDB.empty) ∧
    reconcile_tasks [⟨["a.jpg"], 1, 1, true⟩] FilesDB.empty AlbumsDB.empty [["a.jpg"]] =
      reconcile_tasks [] FilesDB.empty AlbumsDB.empty [["a.jpg"]] :=
  C6_store_error_skipped FilesDB.empty AlbumsDB.empty ⟨["a.jpg"], 1, 1, true⟩ [] [["a.jpg"]]
    rfl (by decide)

/-- Claim C9: a file present in the prior state whose per-file processing
fails (here: unreadable while re-hashing because its recorded modified time
differs from the scanned one) is omitted from the current state; the delete
pass then classifies its path as Deleted and removes its record from the
store, even though the file is still present in the scan. -/
theorem C9_failed_processing_deleted (p : FPath) (c : Checksum) (content t tq : Nat)
    (adb0 : AlbumsDB) (h : t ≠ tq) :
    (reconcile_tasks [⟨p, content, tq, false⟩] ⟨[⟨1, p, c, t⟩], 2⟩ adb0 []).current = [] ∧
    (reconcile_tasks [⟨p, content, tq, false⟩] ⟨[⟨1, p, c, t⟩], 2⟩ adb0 []).newFiles = [] ∧
    (reconcile_tasks [⟨p, content, tq, false⟩] ⟨[⟨1, p, c, t⟩], 2⟩ adb0 []).deletedPaths = [p] ∧
    (reconcile_tasks [⟨p, content, tq, false⟩] ⟨[⟨1, p, c, t⟩], 2⟩ adb0 []).filesDB.rows = [] := by
  have hprior : load_prior_state ⟨[⟨1, p, c, t⟩], 2⟩ = [(p, (c, t))] := by
    simp [load_prior_state, dictInsert]
  have hsel : selectByPath ⟨[⟨1, p, c, t⟩], 2⟩ p = [(c, t)] := by
    simp [selectByPath]
  have hscan : get_file_list ⟨[⟨1, p, c, t⟩], 2⟩ [⟨p, content, tq, false⟩] [] =
      ([], ⟨[⟨1, p, c, t⟩], 2⟩) := by
    have hstep : process_file ⟨[⟨1, p, c, t⟩], 2⟩ (⟨p, content, tq, false⟩ : ScanTask).path
        (⟨p, content, tq, false⟩ : ScanTask).content (⟨p, content, tq, false⟩ : ScanTask).mtime
        (⟨p, content, tq, false⟩ : ScanTask).readable
        (decide ((⟨p, content, tq, false⟩ : ScanTask).path ∉ ([] : List FPath))) =
        (none, ⟨[⟨1, p, c, t⟩], 2⟩) := by
      rw [process_file.eq_def]
      simp only [hsel]
      simp [h]
    rw [get_file_list, hstep, get_file_list]
  have hmove : detect_files_move [] [(p, (c, t))] ⟨[⟨1, p, c, t⟩], 2⟩ =
      ([], ⟨[⟨1, p, c, t⟩], 2⟩) := by
    simp [detect_files_move]
  have hdel : detect_files_delete [] [(p, (c, t))] ⟨[⟨1, p, c, t⟩], 2⟩ = ([p], ⟨[], 2⟩) := by
    simp [detect_files_delete, dictKeys, deleteFilePath]
  have hpass : reconcile_tasks [⟨p, content, tq, false⟩] ⟨[⟨1, p, c, t⟩], 2⟩ adb0 [] =
      ⟨[], [], [], [p], ⟨[], 2⟩, check_removed_albums [] adb0, false, []⟩ := by
    simp only [reconcile_tasks, hprior, hscan, hmove, hdel]
    rfl
  rw [hpass]
  exact ⟨rfl, rfl, rfl, rfl⟩

/-- Claim C9, witness: the theorem instantiated at the path `f.jpg`, recorded
timestamp 1 and scanned timestamp 2. -/
theorem C9_failed_processing_deleted_witness :
    (reconcile_tasks [⟨["f.jpg"], 5, 2, false⟩] ⟨[⟨1, ["f.jpg"], 5, 1⟩], 2⟩
        AlbumsDB.empty []).current = [] ∧
    (reconcile_tasks [⟨["f.jpg"], 5, 2, false⟩] ⟨[⟨1, ["f.jpg"], 5, 1⟩], 2⟩
        AlbumsDB.empty []).newFiles = [] ∧
    (reconcile_tasks [⟨["f.jpg"], 5, 2, false⟩] ⟨[⟨1, ["f.jpg"], 5, 1⟩], 2⟩
        AlbumsDB.empty []).deletedPaths = [["f.jpg"]] ∧
    (reconcile_tasks [⟨["f.jpg"], 5, 2, false⟩] ⟨[⟨1, ["f.jpg"], 5, 1⟩], 2⟩
        AlbumsDB.empty []).filesDB.rows = [] :=
  C9_failed_processing_deleted ["f.jpg"] 5 5 1 2 AlbumsDB.empty (by decide)

theorem dirFiles_mem (pre : FPath) (cs : List FSTree) (t : ScanTask)
    (h : t ∈ dirFiles pre cs) : ∃ n, t.path = pre ++ [n] ∧ n ∉ excluded_files := by
  rcases List.mem_filterMap.mp h with ⟨x, _, hfx⟩
  cases x with
  | file n c m r =>
      by_cases hn : n ∈ excluded_files
      · simp [hn] at hfx
      · simp only [if_neg hn] at hfx
        refine ⟨n, ?_, hn⟩
        rw [← Option.some_inj.mp hfx]
  | dir n cs' => simp at hfx

theorem walkSubdirs_spec (pre : FPath) (cs : List FSTree)
    (hpre : ∀ d ∈ pre, d ∉ excluded_dirs) :
    ∀ t ∈ walkSubdirs pre cs,
      ∃ ds n, t.path = ds ++ [n] ∧ n ∉ excluded_files ∧ ∀ d ∈ ds, d ∉ excluded_dirs := by
  induction pre, cs using walkSubdirs.induct with
  | case1 pre => simp [walkSubdirs]
  | case2 pre nm ct mt rd rest ih =>
      intro t ht
      rw [walkSubdirs] at ht
      exact ih hpre t ht
  | case3 pre n gcs rest ih1 ih2 =>
      intro t ht
      rw [walkSubdirs] at ht
      rcases List.mem_append.mp ht with ht | ht
      · by_cases hn : n ∈ excluded_dirs
        · rw [if_pos hn] at ht
          cases ht
        · rw [if_neg hn] at ht
          have hpre' : ∀ d ∈ pre ++ [n], d ∉ excluded_dirs := by
            intro d hd
            rcases List.mem_append.mp hd with hd | hd
            · exact hpre d hd
            · rw [List.mem_singleton.mp hd]
              exact hn
          rcases List.mem_append.mp ht with ht | ht
          · rcases dirFiles_mem (pre ++ [n]) gcs t ht with ⟨nm, hp, hnm⟩
            exact ⟨pre ++ [n], nm, hp, hnm, hpre'⟩
          · exact ih1 hpre' t ht
      · exact ih2 hpre t ht

/-- Claim C7: every task produced by the tree scan has a file name outside the
file-exclusion set and a directory prefix none of whose components is in the
directory-exclusion set — no excluded file and no file under an excluded
directory, at any nesting depth, ever appears in the scan output. -/
theorem C7_exclusions (root : List FSTree) (t : ScanTask) (h : t ∈ get_file_tasks root) :
    ∃ ds n, t.path = ds ++ [n] ∧ n ∉ excluded_files ∧ ∀ d ∈ ds, d ∉ excluded_dirs := by
  rw [get_file_tasks] at h
  rcases List.mem_append.mp h with h | h
  · rcases dirFiles_mem [] root t h with ⟨n, hp, hn⟩
    exact ⟨[], n, hp, hn, by simp⟩
  · exact walkSubdirs_spec [] root (by simp) t h

/-- Claim C7, witness: the exclusion theorem instantiated at a concrete tree
containing an excluded directory and an excluded file next to `A/1.jpg`. -/
theorem C7_exclusions_witness :
    ((⟨["A", "1.jpg"], 5, 1, true⟩ : ScanTask) ∈ get_file_tasks
      [.dir "@eaDir" [.file "x.jpg" 9 9 true],
       .dir "A" [.file "Thumbs.db" 0 0 true, .file "1.jpg" 5 1 true]]) ∧
    (∃ ds n, (⟨["A", "1.jpg"], 5, 1, true⟩ : ScanTask).path = ds ++ [n] ∧
      n ∉ excluded_files ∧ ∀ d ∈ ds, d ∉ excluded_dirs) := by
  have hmem : (⟨["A", "1.jpg"], 5, 1, true⟩ : ScanTask) ∈ get_file_tasks
      [.dir "@eaDir" [.file "x.jpg" 9 9 true],
       .dir "A" [.file "Thumbs.db" 0 0 true, .file "1.jpg" 5 1 true]] := by
    have h : get_file_tasks
        [.dir "@eaDir" [.file "x.jpg" 9 9 true],
         .dir "A" [.file "Thumbs.db" 0 0 true, .file "1.jpg" 5 1 true]] =
        [⟨["A", "1.jpg"], 5, 1, true⟩] := by
      simp +decide [get_file_tasks, walkSubdirs, dirFiles, excluded_dirs, excluded_files]
    rw [h]
    decide
  exact ⟨hmem, C7_exclusions _ _ hmem⟩

/-- Claim C10: on a first run (empty prior file state), `main` records every
scanned file in the files table, creates exactly the derived album names in
the albums table, and exits with code 0 without running any Added, Moved or
Deleted classification and without dispatching any notification. -/
theorem C10_first_run (root : List FSTree) (db0 : FilesDB) (adb0 : AlbumsDB)
    (hdb : db0.rows = []) (hadb : adb0.rows = [])
    (hnd : ((get_file_tasks root).map (fun t => t.path)).Nodup)
    (hread : ∀ t ∈ get_file_tasks root, t.readable = true) :
    (pixelsentinel_main true root db0 adb0 []).exitCode = 0 ∧
    (pixelsentinel_main true root db0 adb0 []).passOutcome = none ∧
    (pixelsentinel_main true root db0 adb0 []).notified = false ∧
    (pixelsentinel_main true root db0 adb0 []).filesDB.rows.map rowData =
      (get_file_tasks root).map taskData ∧
    (∀ k, k ∈ (pixelsentinel_main true root db0 adb0 []).albumsDB.rows.map (fun r => r.name) ↔
      k ∈ (get_file_tasks root).map (fun t => album_key_plain t.path)) := by
  set tasks := get_file_tasks root with htasks
  have hprior : load_prior_state db0 = [] := by
    simp [load_prior_state, hdb]
  have hscan : get_file_list db0 tasks [] =
      (tasks.map entryOf, ⟨newRows db0.nextId tasks, db0.nextId + tasks.length⟩) := by
    have hfresh : ∀ t ∈ tasks, ∀ r ∈ db0.rows, r.path ≠ t.path := by
      intro t _ r hr
      rw [hdb] at hr
      cases hr
    have hgl := get_file_list_fresh tasks db0 hfresh hnd hread
    simpa [hdb] using hgl
  have hmain : pixelsentinel_main true root db0 adb0 [] =
      ⟨0, ⟨newRows db0.nextId tasks, db0.nextId + tasks.length⟩,
        initialize_albums ⟨newRows db0.nextId tasks, db0.nextId + tasks.length⟩ adb0,
        some (tasks.map entryOf), none, false⟩ := by
    simp only [pixelsentinel_main, hprior, hscan]
    rfl
  have hnames : (newRows db0.nextId tasks).map (fun r => album_key_plain r.path) =
      tasks.map (fun t => album_key_plain t.path) := by
    calc (newRows db0.nextId tasks).map (fun r => album_key_plain r.path)
        = ((newRows db0.nextId tasks).map (fun r => r.path)).map album_key_plain := by
          rw [List.map_map]
          rfl
      _ = (tasks.map (fun t => t.path)).map album_key_plain := by
          rw [newRows_map_path]
      _ = tasks.map (fun t => album_key_plain t.path) := by
          rw [List.map_map]
          rfl
  refine ⟨by rw [hmain], by rw [hmain], by rw [hmain], ?_, ?_⟩
  · rw [hmain]
    exact newRows_map_rowData db0.nextId tasks
  · intro k
    rw [hmain]
    rw [mem_initialize_albums]
    rw [show (⟨newRows db0.nextId tasks, db0.nextId + tasks.length⟩ : FilesDB).rows.map
        (fun r => album_key_plain r.path) =
        tasks.map (fun t => album_key_plain t.path) from hnames]
    simp [hadb]

/-- Claim C10, witness: the first-run theorem instantiated at a fresh
deployment and a tree with the single file `A/1.jpg`. -/
theorem C10_first_run_witness :
    (((get_file_tasks [.dir "A" [.file "1.jpg" 5 1 true]]).map (fun t => t.path)).Nodup ∧
     (∀ t ∈ get_file_tasks [.dir "A" [.file "1.jpg" 5 1 true]], t.readable = true)) ∧
    ((pixelsentinel_main true [.dir "A" [.file "1.jpg" 5 1 true]]
        FilesDB.empty AlbumsDB.empty []).exitCode = 0 ∧
     (pixelsentinel_main true [.dir "A" [.file "1.jpg" 5 1 true]]
        FilesDB.empty AlbumsDB.empty []).passOutcome = none ∧
     (pixelsentinel_main true [.dir "A" [.file "1.jpg" 5 1 true]]
        FilesDB.empty AlbumsDB.empty []).notified = false ∧
     (pixelsentinel_main true [.dir "A" [.file "1.jpg" 5 1 true]]
        FilesDB.empty AlbumsDB.empty []).filesDB.rows.map rowData =
       (get_file_tasks [.dir "A" [.file "1.jpg" 5 1 true]]).map taskData ∧
     (∀ k, k ∈ (pixelsentinel_main true [.dir "A" [.file "1.jpg" 5 1 true]]
          FilesDB.empty AlbumsDB.empty []).albumsDB.rows.map (fun r => r.name) ↔
       k ∈ (get_file_tasks [.dir "A" [.file "1.jpg" 5 1 true]]).map
          (fun t => album_key_plain t.path))) := by
  have htasks : get_file_tasks [.dir "A" [.file "1.jpg" 5 1 true]] =
      [⟨["A", "1.jpg"], 5, 1, true⟩] := by
    simp +decide [get_file_tasks, walkSubdirs, dirFiles, excluded_dirs, excluded_files]
  refine ⟨⟨by rw [htasks]; decide, by rw [htasks]; decide⟩, ?_⟩
  exact C10_first_run [.dir "A" [.file "1.jpg" 5 1 true]] FilesDB.empty AlbumsDB.empty
    rfl rfl (by rw [htasks]; decide) (by rw [htasks]; decide)
